import Mathlib

/-!
Verification of the AppImage desktop-integration helper routines
(src/shared/shared.cpp) against their natural-language description.

Qt strings are modelled as lists of characters.  Filesystem state and
external library calls (stat, chmod, libappimage, glib key files, the
config file) are modelled as explicit inputs: each embedded function takes
the data those calls would return and computes the same result and the
same externally visible actions as the C++ code.
-/

set_option maxHeartbeats 1000000

namespace AppImageIntegrator

/-- A Qt string, modelled as its list of characters. -/
abbrev QString := List Char

/-- Substring test, modelling QString::contains(QString): true when the
needle occurs contiguously inside the haystack (an empty needle always
occurs). -/
def containsSubstr (needle : QString) : QString → Bool
  | [] => needle.isEmpty
  | c :: rest => needle.isPrefixOf (c :: rest) || containsSubstr needle rest

/-! ## makeExecutable / makeNonExecutable (shared.cpp lines 48 to 84) -/

/-- The fields of `struct stat` that the permission helpers read. -/
structure FileStat where
  st_uid : Nat
  st_gid : Nat
  st_mode : Nat
deriving DecidableEq

/-- Embedding of makeExecutable.  `statResult` is what stat() returns
(none when the call fails), `uid` and `gid` are getuid() and getgid(),
and `chmodSucceeds m` tells whether a chmod to mode `m` would succeed.
The result is the returned Bool paired with the mode passed to chmod
(none when chmod is never called). -/
def makeExecutable (statResult : Option FileStat) (uid gid : Nat)
    (chmodSucceeds : Nat → Bool) : Bool × Option Nat :=
  match statResult with
  | none => (false, none)
  | some fileStat =>
    if (fileStat.st_uid = uid ∧ fileStat.st_mode &&& 0o100 ≠ 0) ∨
       (fileStat.st_gid = gid ∧ fileStat.st_mode &&& 0o010 ≠ 0) ∨
       (fileStat.st_mode &&& 0o001 ≠ 0) then
      (true, none)
    else
      (chmodSucceeds (fileStat.st_mode ||| 0o111),
       some (fileStat.st_mode ||| 0o111))

/-- The loop of makeNonExecutable: for each of the three execute bits, if
the bit is set in the permissions, subtract it. -/
def removeExecutablePermissions (mode : Nat) : Nat :=
  [0o100, 0o010, 0o001].foldl
    (fun permissions permPart =>
      if permissions &&& permPart ≠ 0 then permissions - permPart
      else permissions)
    mode

/-- Embedding of makeNonExecutable, with the same conventions as
`makeExecutable`: the result is the returned Bool paired with the mode
passed to chmod (none when chmod is never called, i.e. when stat fails). -/
def makeNonExecutable (statResult : Option FileStat)
    (chmodSucceeds : Nat → Bool) : Bool × Option Nat :=
  match statResult with
  | none => (false, none)
  | some fileStat =>
    (chmodSucceeds (removeExecutablePermissions fileStat.st_mode),
     some (removeExecutablePermissions fileStat.st_mode))

/-! ## expandTilde / getConfig / integratedAppImagesDestination
(shared.cpp lines 86 to 93, 146 to 171, 227 to 238) -/

/-- Embedding of expandTilde: when the first character of the path is a
tilde, remove it and prepend the home directory (reading position 0 of an
empty QString yields a null character, so an empty path is unchanged). -/
def expandTilde (homePath : QString) (path : QString) : QString :=
  if path.head? = some '~' then homePath ++ path.drop 1
  else path

/-- The contents of the config file as far as getConfig reads them: the
value of the AppImageLauncher/destination key, when present. -/
structure ConfigSettings where
  destination : Option QString
deriving DecidableEq

/-- Embedding of getConfig.  `configFile` is none when the config file
does not exist; otherwise it holds the parsed settings.  The destination
value, when present, gets a leading tilde expanded before the settings
object is returned. -/
def getConfig (homePath : QString) (configFile : Option ConfigSettings) :
    Option ConfigSettings :=
  match configFile with
  | none => none
  | some settings =>
    some { destination := settings.destination.map (expandTilde homePath) }

/-- Embedding of integratedAppImagesDestination.  `defaultDestination` is
the compile-time DEFAULT_INTEGRATION_DESTINATION constant. -/
def integratedAppImagesDestination (defaultDestination homePath : QString)
    (configFile : Option ConfigSettings) : QString :=
  match getConfig homePath configFile with
  | none => defaultDestination
  | some config =>
    match config.destination with
    | some value => value
    | none => defaultDestination

/-! ## isHeadless (shared.cpp lines 174 to 205) -/

/-- Embedding of isHeadless.  `forceHeadlessSet` tells whether the
_FORCE_HEADLESS environment variable is set, `xhostExitCode` is the exit
code of the xhost invocation, `displaySet` tells whether DISPLAY is set.
The result is none when the function throws std::runtime_error instead of
returning. -/
def isHeadless (forceHeadlessSet : Bool) (xhostExitCode : Int)
    (displaySet : Bool) : Option Bool :=
  if forceHeadlessSet then
    some true
  else if xhostExitCode = 255 then
    some (!displaySet)
  else if xhostExitCode = 0 ∨ xhostExitCode = 1 then
    some (decide (xhostExitCode = 1))
  else
    none

/-! ## buildPathToIntegratedAppImage (shared.cpp lines 240 to 267) -/

/-- QFileInfo::fileName: the characters after the last slash. -/
def fileNameOf (path : QString) : QString :=
  (path.reverse.takeWhile (fun c => c ≠ '/')).reverse

/-- QFileInfo::suffix: the characters of the file name after the last
dot, empty when the file name holds no dot. -/
def suffixOf (path : QString) : QString :=
  let fn := fileNameOf path
  if fn.contains '.' then (fn.reverse.takeWhile (fun c => c ≠ '.')).reverse
  else []

/-- QFileInfo::completeBaseName: the characters of the file name up to
(not including) the last dot, the whole file name when it holds no dot. -/
def completeBaseNameOf (path : QString) : QString :=
  let fn := fileNameOf path
  if fn.contains '.' then
    ((fn.reverse.dropWhile (fun c => c ≠ '.')).drop 1).reverse
  else fn

/-- The suffix part appended to the integrated file name: a dot followed
by the suffix when the suffix is nonempty, nothing otherwise. -/
def suffixPartOf (path : QString) : QString :=
  if suffixOf path ≠ [] then '.' :: suffixOf path else []

/-- Embedding of buildPathToIntegratedAppImage.  `digest` is the value
returned by getAppImageDigestMd5 for the path (the empty string when no
digest is available; that helper is pure glue around libappimage, so its
result is taken as an input here).  The config inputs are threaded
through to the integratedAppImagesDestination call. -/
def buildPathToIntegratedAppImage (defaultDestination homePath : QString)
    (configFile : Option ConfigSettings) (digest : QString)
    (pathToAppImage : QString) : QString :=
  let baseName := completeBaseNameOf pathToAppImage
  let baseName :=
    if digest ≠ [] then
      if containsSubstr ('_' :: digest) pathToAppImage = false then
        baseName ++ '_' :: digest
      else baseName
    else baseName
  let fileName := baseName
  let fileName :=
    if suffixOf pathToAppImage ≠ [] then
      fileName ++ '.' :: suffixOf pathToAppImage
    else fileName
  integratedAppImagesDestination defaultDestination homePath configFile
    ++ '/' :: fileName

/-! ## Collision resolution inside installDesktopFileAndIcons
(shared.cpp lines 385 to 416) -/

/-- QString::toUInt restricted to base-10 digit strings: a nonempty
all-digit string is parsed as a number, anything else fails and yields 0
(Qt returns 0 whenever the conversion fails). -/
def qstringToUInt (s : QString) : Nat :=
  if s ≠ [] ∧ s.all (fun c => c.isDigit) then
    s.foldl (fun acc c => 10 * acc + (c.toNat - 48)) 0
  else 0

/-- Whether a string matches the anchored regular expression used for
collision numbers: any characters, then an opening bracket, one or more
digits, a closing bracket, end of string. -/
def nameMatchesNumberRegex (s : QString) : Bool :=
  match s.reverse with
  | ')' :: t =>
    let ds := t.takeWhile (fun c => c.isDigit)
    decide (ds ≠ []) && decide ((t.drop ds.length).head? = some '(')
  | _ => false

/-- The collision-number loop of installDesktopFileAndIcons, applied to
the Name entries of the colliding desktop files (after the own entry has
been erased).  The source takes match.captured(0) — the text of the WHOLE
match, which for this anchored pattern is the complete Name — and calls
toUInt on it. -/
def collisionRenameNumber (collisionNames : List QString) : Nat :=
  collisionNames.foldl
    (fun currentNumber currentNameEntry =>
      if nameMatchesNumberRegex currentNameEntry then
        let num := qstringToUInt currentNameEntry
        if num ≥ currentNumber then num + 1 else currentNumber
      else currentNumber)
    1

/-- The new Name written to the desktop file when the collision set is
nonempty: the original Name, a space, and the computed number in
brackets. -/
def collisionResolvedName (nameEntry : QString)
    (collisionNames : List QString) : QString :=
  nameEntry ++ (" (" ++ Nat.repr (collisionRenameNumber collisionNames)
    ++ ")").toList

/-! ## cleanUpOldDesktopIntegrationResources (shared.cpp lines 736 to 812) -/

/-- The key-file values that the cleanup routine reads from a desktop
file: the Exec, TryExec and Icon entries of the Desktop Entry group. -/
structure KeyFileData where
  execValue : Option QString
  tryExecValue : Option QString
  iconValue : Option QString
deriving DecidableEq

/-- One file of the applications directory listing: its file name and
the result of loading it with the key-file parser (none when loading
fails). -/
structure DesktopDirEntry where
  fileName : QString
  parsed : Option KeyFileData
deriving DecidableEq

/-- The appimagekit_*.desktop name filter: the name starts with the
twelve characters of the appimagekit prefix, ends in .desktop, and is
long enough that the two parts do not overlap. -/
def matchesAppImageKitDesktopFilter (name : QString) : Bool :=
  List.isPrefixOf "appimagekit_".toList name &&
    List.isSuffixOf ".desktop".toList name &&
    decide (20 ≤ name.length)

/-- The AppImage path a desktop file references: the TryExec value when
present, otherwise the Exec value up to the first space. -/
def referencedAppImagePath (keyFile : KeyFileData) (execValue : QString) :
    QString :=
  match keyFile.tryExecValue with
  | some tryExecValue => tryExecValue
  | none => execValue.takeWhile (fun c => c ≠ ' ')

/-- Whether cleanUpOldDesktopIntegrationResources removes a given
directory entry: the name must match the filter, the file must parse,
an Exec value must be present, and the referenced AppImage must not
exist on disk. -/
def entryIsRemoved (fileExists : QString → Bool)
    (entry : DesktopDirEntry) : Bool :=
  if !matchesAppImageKitDesktopFilter entry.fileName then false
  else
    match entry.parsed with
    | none => false
    | some keyFile =>
      match keyFile.execValue with
      | none => false
      | some execValue =>
        !fileExists (referencedAppImagePath keyFile execValue)

/-- Embedding of cleanUpOldDesktopIntegrationResources.  `entries` is the
listing of the applications directory, `fileExists` tells which paths
exist on disk.  The result is the list of desktop files left in place,
paired with the returned Bool. -/
def cleanUpOldDesktopIntegrationResources (entries : List DesktopDirEntry)
    (fileExists : QString → Bool) : List DesktopDirEntry × Bool :=
  (entries.filter (fun entry => !entryIsRemoved fileExists entry), true)

/-! ## integrateAppImage (shared.cpp lines 617 to 683) -/

/-- The return values of integrateAppImage. -/
inductive IntegrationState where
  | INTEGRATION_FAILED
  | INTEGRATION_SUCCESSFUL
  | INTEGRATION_ABORTED
deriving DecidableEq

/-- The externally visible filesystem actions integrateAppImage can
perform, in order: creating the target directory, removing the existing
file at the target path, moving or copying the AppImage there, and
registering the desktop file and icons. -/
inductive FsAction where
  | mkdirTargetDir
  | removeExistingTarget
  | renameToTarget
  | copyToTarget
  | installDesktopFile
deriving DecidableEq

/-- The tail of integrateAppImage: the installDesktopFileAndIcons call.
The install action is recorded when the call succeeds. -/
def finishIntegration (actions : List FsAction) (installSucceeds : Bool) :
    IntegrationState × List FsAction :=
  if installSucceeds then
    (IntegrationState.INTEGRATION_SUCCESSFUL,
     actions ++ [FsAction.installDesktopFile])
  else (IntegrationState.INTEGRATION_FAILED, actions)

/-- The move-or-copy part of integrateAppImage: try the rename; when it
fails ask the user whether to copy instead; Cancel and a failed copy both
end in INTEGRATION_FAILED. -/
def moveOrCopyThenInstall (actions : List FsAction)
    (renameSucceeds copyConfirmed copySucceeds installSucceeds : Bool) :
    IntegrationState × List FsAction :=
  if renameSucceeds then
    finishIntegration (actions ++ [FsAction.renameToTarget]) installSucceeds
  else if !copyConfirmed then (IntegrationState.INTEGRATION_FAILED, actions)
  else if copySucceeds then
    finishIntegration (actions ++ [FsAction.copyToTarget]) installSucceeds
  else (IntegrationState.INTEGRATION_FAILED, actions)

/-- Embedding of integrateAppImage.  `pathsDiffer` tells whether the
absolute paths of the source and the integrated AppImage differ,
`existsAtTarget` whether a file already exists at the integrated path,
`overwriteConfirmed` whether the user answered Yes to the overwrite
question, and the remaining flags give the outcomes of the rename, the
copy question, the copy and the desktop-file installation. -/
def integrateAppImage
    (pathsDiffer existsAtTarget overwriteConfirmed renameSucceeds
      copyConfirmed copySucceeds installSucceeds : Bool) :
    IntegrationState × List FsAction :=
  let actions := [FsAction.mkdirTargetDir]
  if pathsDiffer then
    if existsAtTarget then
      if !overwriteConfirmed then
        (IntegrationState.INTEGRATION_ABORTED, actions)
      else
        moveOrCopyThenInstall (actions ++ [FsAction.removeExistingTarget])
          renameSucceeds copyConfirmed copySucceeds installSucceeds
    else
      moveOrCopyThenInstall actions
        renameSucceeds copyConfirmed copySucceeds installSucceeds
  else finishIntegration actions installSucceeds

/-! ## getMTime / desktopFileHasBeenUpdatedSinceLastUpdate
(shared.cpp lines 814 to 837) -/

/-- Embedding of getMTime.  `statMTime` maps a path to the st_mtim.tv_sec
field of a successful stat, or none when stat fails; on failure getMTime
returns -1. -/
def getMTime (statMTime : QString → Option Int) (path : QString) : Int :=
  match statMTime path with
  | none => -1
  | some mtime => mtime

/-- Embedding of desktopFileHasBeenUpdatedSinceLastUpdate.
`ownBinaryPath` is the resolved /proc/self/exe path and
`desktopFilePath` the registered desktop file path that libappimage
reports for the AppImage. -/
def desktopFileHasBeenUpdatedSinceLastUpdate
    (statMTime : QString → Option Int)
    (ownBinaryPath desktopFilePath : QString) : Bool :=
  let ownBinaryMTime := getMTime statMTime ownBinaryPath
  let desktopFileMTime := getMTime statMTime desktopFilePath
  if desktopFileMTime < 0 ∨ ownBinaryMTime < 0 then false
  else decide (desktopFileMTime > ownBinaryMTime)

/-! ## isAppImage (shared.cpp lines 887 to 890) -/

/-- Embedding of isAppImage.  `appimageGetType` is what the libappimage
type detector returns for a path (negative values are its error codes). -/
def isAppImage (appimageGetType : QString → Int) (path : QString) : Bool :=
  let imageType := appimageGetType path
  decide (imageType > 0) && decide (imageType ≤ 2)

/-! ## Theorems -/

/-- The bits of 73 (octal 111, the mask of the three execute bits) are
exactly the bits 0, 3 and 6. -/
theorem testBit_73 (j : Nat) :
    (73 : Nat).testBit j =
      (decide (j = 0) || decide (j = 3) || decide (j = 6)) := by
  match j with
  | 0 => decide
  | 1 => decide
  | 2 => decide
  | 3 => decide
  | 4 => decide
  | 5 => decide
  | 6 => decide
  | j + 7 =>
    rw [Nat.testBit_lt_two_pow]
    · simp
    · calc (73 : Nat) < 2 ^ 7 := by decide
        _ ≤ 2 ^ (j + 7) := Nat.pow_le_pow_right (by decide) (by omega)

/-- Claim C10: for every path, isAppImage returns true if and only if the
detected AppImage type is 1 or 2; any other detected type, including zero
and negative error values, yields false. -/
theorem c10_isAppImage_iff_type_one_or_two
    (appimageGetType : QString → Int) (path : QString) :
    isAppImage appimageGetType path = true ↔
      appimageGetType path = 1 ∨ appimageGetType path = 2 := by
  unfold isAppImage
  simp only [Bool.and_eq_true, decide_eq_true_eq]
  omega

/-- Claim C7: isHeadless returns true whenever _FORCE_HEADLESS is set;
otherwise, for xhost exit code 255 it returns true exactly when DISPLAY
is unset, for exit code 0 it returns false, for exit code 1 it returns
true, and for any other exit code it throws a runtime error instead of
returning a value. -/
theorem c7_isHeadless_spec (xhostExitCode : Int) (displaySet : Bool)
    (h255 : xhostExitCode ≠ 255) (h0 : xhostExitCode ≠ 0)
    (h1 : xhostExitCode ≠ 1) :
    (∀ (code : Int) (d : Bool), isHeadless true code d = some true) ∧
    isHeadless false 255 displaySet = some (!displaySet) ∧
    isHeadless false 0 displaySet = some false ∧
    isHeadless false 1 displaySet = some true ∧
    isHeadless false xhostExitCode displaySet = none := by
  refine ⟨fun code d => rfl, rfl, rfl, rfl, ?_⟩
  simp [isHeadless, h255, h0, h1]

/-- Witness for claim C7 at exit code 2: the function throws there, and
returns true when _FORCE_HEADLESS is set. -/
theorem c7_isHeadless_witness :
    isHeadless false 2 false = none ∧ isHeadless true 2 false = some true :=
  ⟨(c7_isHeadless_spec 2 false (by decide) (by decide) (by decide)).2.2.2.2,
   (c7_isHeadless_spec 2 false (by decide) (by decide) (by decide)).1
     2 false⟩

/-- Claim C4: when the integrated path differs from the source path, a
file already exists at the integrated path, and the user declines to
overwrite it, integrateAppImage returns INTEGRATION_ABORTED having
removed, moved and copied nothing and registered no desktop entry: the
only prior action is the mkdir of the target directory. -/
theorem c4_integrateAppImage_abort
    (renameSucceeds copyConfirmed copySucceeds installSucceeds : Bool) :
    integrateAppImage true true false renameSucceeds copyConfirmed
        copySucceeds installSucceeds =
      (IntegrationState.INTEGRATION_ABORTED, [FsAction.mkdirTargetDir]) ∧
    FsAction.removeExistingTarget ∉ (integrateAppImage true true false
      renameSucceeds copyConfirmed copySucceeds installSucceeds).2 ∧
    FsAction.renameToTarget ∉ (integrateAppImage true true false
      renameSucceeds copyConfirmed copySucceeds installSucceeds).2 ∧
    FsAction.copyToTarget ∉ (integrateAppImage true true false
      renameSucceeds copyConfirmed copySucceeds installSucceeds).2 ∧
    FsAction.installDesktopFile ∉ (integrateAppImage true true false
      renameSucceeds copyConfirmed copySucceeds installSucceeds).2 := by
  refine ⟨rfl, ?_, ?_, ?_, ?_⟩ <;> simp [integrateAppImage]

/-- Claim C5: makeExecutable returns true without calling chmod when the
file is already executable for the caller (owner execute bit set with
matching uid, group execute bit set with matching gid, or the other
execute bit set); otherwise it calls chmod with the stat mode plus all
three execute bits and returns true exactly when chmod succeeds; and it
returns false when stat fails. -/
theorem c5_makeExecutable_spec (uid gid : Nat)
    (chmodSucceeds : Nat → Bool) (fileStat : FileStat) :
    makeExecutable none uid gid chmodSucceeds = (false, none) ∧
    ((fileStat.st_uid = uid ∧ fileStat.st_mode &&& 0o100 ≠ 0) ∨
     (fileStat.st_gid = gid ∧ fileStat.st_mode &&& 0o010 ≠ 0) ∨
     fileStat.st_mode &&& 0o001 ≠ 0 →
      makeExecutable (some fileStat) uid gid chmodSucceeds = (true, none)) ∧
    (¬((fileStat.st_uid = uid ∧ fileStat.st_mode &&& 0o100 ≠ 0) ∨
       (fileStat.st_gid = gid ∧ fileStat.st_mode &&& 0o010 ≠ 0) ∨
       fileStat.st_mode &&& 0o001 ≠ 0) →
      makeExecutable (some fileStat) uid gid chmodSucceeds =
        (chmodSucceeds (fileStat.st_mode ||| 0o111),
         some (fileStat.st_mode ||| 0o111)) ∧
      ∀ j : Nat,
        (fileStat.st_mode ||| 0o111).testBit j =
          (decide (j = 0) || decide (j = 3) || decide (j = 6) ||
            fileStat.st_mode.testBit j)) := by
  refine ⟨rfl, fun h => ?_, fun h => ⟨?_, fun j => ?_⟩⟩
  · simp only [makeExecutable, if_pos h]
  · simp only [makeExecutable, if_neg h]
  · rw [Nat.testBit_or, testBit_73, Bool.or_comm]

/-- Witness for claim C5: a file with mode 420 (octal 644) owned by the
caller is not executable, so chmod is called with mode 493 (octal 755);
a file with mode 493 already has the owner execute bit, so chmod is not
called. -/
theorem c5_makeExecutable_witness :
    makeExecutable (some ⟨5, 5, 420⟩) 5 5 (fun _ => true) =
      (true, some 493) ∧
    makeExecutable (some ⟨5, 5, 493⟩) 5 5 (fun _ => true) = (true, none) :=
  ⟨((c5_makeExecutable_spec 5 5 (fun _ => true) ⟨5, 5, 420⟩).2.2
      (by decide)).1,
   (c5_makeExecutable_spec 5 5 (fun _ => true) ⟨5, 5, 493⟩).2.1 (by decide)⟩

/-- Claim C8: getConfig returns a null pointer whenever the config file
does not exist, and integratedAppImagesDestination then falls back to the
default integration destination; when the file exists and holds an
AppImageLauncher/destination value, a leading tilde in that value is
replaced by the home directory before the settings object is returned,
and a value whose tilde is not in the first position is left unchanged. -/
theorem c8_getConfig_spec (defaultDestination homePath : QString)
    (value : QString) (hnotilde : value.head? ≠ some '~') :
    getConfig homePath none = none ∧
    integratedAppImagesDestination defaultDestination homePath none =
      defaultDestination ∧
    (∀ rest : QString,
      getConfig homePath (some ⟨some ('~' :: rest)⟩) =
        some ⟨some (homePath ++ rest)⟩) ∧
    getConfig homePath (some ⟨some value⟩) = some ⟨some value⟩ := by
  refine ⟨rfl, rfl, fun rest => ?_, ?_⟩
  · simp [getConfig, expandTilde]
  · simp [getConfig, expandTilde, hnotilde]

/-- Witness for claim C8 on the value "/opt": it does not start with a
tilde and is returned unchanged, while "~/Apps" gets the tilde expanded
to the home directory "/home/u". -/
theorem c8_getConfig_witness :
    getConfig "/home/u".toList (some ⟨some "/opt".toList⟩) =
      some ⟨some "/opt".toList⟩ ∧
    getConfig "/home/u".toList (some ⟨some "~/Apps".toList⟩) =
      some ⟨some "/home/u/Apps".toList⟩ := by
  refine ⟨(c8_getConfig_spec [] "/home/u".toList "/opt".toList
    (by decide)).2.2.2, ?_⟩
  have h := (c8_getConfig_spec [] "/home/u".toList "/opt".toList
    (by decide)).2.2.1 "/Apps".toList
  exact h

/-- A desktop file is removed by the cleanup exactly when it matches the
filter, parses, has an Exec value, and references a missing AppImage. -/
theorem entryIsRemoved_iff (fileExists : QString → Bool)
    (entry : DesktopDirEntry) :
    entryIsRemoved fileExists entry = true ↔
      matchesAppImageKitDesktopFilter entry.fileName = true ∧
      ∃ keyFile, entry.parsed = some keyFile ∧
        ∃ execValue, keyFile.execValue = some execValue ∧
          fileExists (referencedAppImagePath keyFile execValue) = false := by
  obtain ⟨fileName, parsed⟩ := entry
  cases hf : matchesAppImageKitDesktopFilter fileName with
  | false => simp [entryIsRemoved, hf]
  | true =>
    cases parsed with
    | none => simp [entryIsRemoved, hf]
    | some keyFile =>
      obtain ⟨exec?, tryExec?, icon?⟩ := keyFile
      cases exec? with
      | none => simp [entryIsRemoved, hf]
      | some execValue => simp [entryIsRemoved, hf]

/-- Claim C3: cleanUpOldDesktopIntegrationResources always returns true;
among the listed files, exactly those whose name matches
appimagekit_*.desktop, that parse as key files, that have an Exec value,
and whose referenced AppImage path (the TryExec value when present,
otherwise the first space-separated token of the Exec value) does not
exist on disk are removed; all other files, in particular those that
fail to parse or lack an Exec key, are left in place. -/
theorem c3_cleanup_spec (entries : List DesktopDirEntry)
    (fileExists : QString → Bool) (entry : DesktopDirEntry)
    (hmem : entry ∈ entries) :
    (cleanUpOldDesktopIntegrationResources entries fileExists).2 = true ∧
    (entry ∉ (cleanUpOldDesktopIntegrationResources entries fileExists).1 ↔
      matchesAppImageKitDesktopFilter entry.fileName = true ∧
      ∃ keyFile, entry.parsed = some keyFile ∧
        ∃ execValue, keyFile.execValue = some execValue ∧
          fileExists (referencedAppImagePath keyFile execValue) = false) := by
  refine ⟨rfl, ?_⟩
  rw [← entryIsRemoved_iff fileExists entry]
  unfold cleanUpOldDesktopIntegrationResources
  simp [List.mem_filter, hmem]

/-- Witness for claim C3: a single appimagekit desktop file whose Exec
references a missing AppImage is removed, and the function returns
true. -/
theorem c3_cleanup_witness :
    (cleanUpOldDesktopIntegrationResources
      [⟨"appimagekit_a.desktop".toList,
        some ⟨some "/x/a".toList, none, none⟩⟩]
      (fun _ => false)).2 = true ∧
    (⟨"appimagekit_a.desktop".toList,
      some ⟨some "/x/a".toList, none, none⟩⟩ : DesktopDirEntry) ∉
      (cleanUpOldDesktopIntegrationResources
        [⟨"appimagekit_a.desktop".toList,
          some ⟨some "/x/a".toList, none, none⟩⟩]
        (fun _ => false)).1 := by
  have h := c3_cleanup_spec
    [⟨"appimagekit_a.desktop".toList, some ⟨some "/x/a".toList, none, none⟩⟩]
    (fun _ => false)
    ⟨"appimagekit_a.desktop".toList, some ⟨some "/x/a".toList, none, none⟩⟩
    (by simp)
  exact ⟨h.1, h.2.mpr ⟨by decide,
    ⟨some "/x/a".toList, none, none⟩, rfl, "/x/a".toList, rfl, rfl⟩⟩

/-- A list contains every needle that occurs contiguously inside it. -/
theorem containsSubstr_append_self (needle left right : QString) :
    containsSubstr needle (left ++ (needle ++ right)) = true := by
  induction left with
  | nil =>
    rw [List.nil_append]
    cases hn : needle ++ right with
    | nil =>
      have hne : needle = [] := by
        cases needle with
        | nil => rfl
        | cons c cs => simp at hn
      simp [containsSubstr, hne]
    | cons c rest =>
      have hp : needle.isPrefixOf (c :: rest) = true := by
        rw [List.isPrefixOf_iff_prefix, ← hn]
        exact List.prefix_append needle right
      simp [containsSubstr, hp]
  | cons c cs ih =>
    simp [containsSubstr, ih]

/-- Claim C9: buildPathToIntegratedAppImage joins the integration
destination directory with the complete base name of the source file and
its original final suffix; with a nonempty MD5 digest, an underscore and
the digest are appended to the base name exactly when the source path
does not already contain that digest suffix, and the built path then
contains the digest suffix, so applying the naming scheme to a path that
already carries it appends nothing further. -/
theorem c9_buildPath_spec (defaultDestination homePath : QString)
    (configFile : Option ConfigSettings) (digest pathToAppImage : QString) :
    (digest ≠ [] →
      containsSubstr ('_' :: digest) pathToAppImage = false →
      buildPathToIntegratedAppImage defaultDestination homePath configFile
          digest pathToAppImage =
        integratedAppImagesDestination defaultDestination homePath
            configFile ++
          '/' :: (completeBaseNameOf pathToAppImage ++ '_' :: digest ++
            suffixPartOf pathToAppImage)) ∧
    (containsSubstr ('_' :: digest) pathToAppImage = true →
      buildPathToIntegratedAppImage defaultDestination homePath configFile
          digest pathToAppImage =
        integratedAppImagesDestination defaultDestination homePath
            configFile ++
          '/' :: (completeBaseNameOf pathToAppImage ++
            suffixPartOf pathToAppImage)) ∧
    (digest = [] →
      buildPathToIntegratedAppImage defaultDestination homePath configFile
          digest pathToAppImage =
        integratedAppImagesDestination defaultDestination homePath
            configFile ++
          '/' :: (completeBaseNameOf pathToAppImage ++
            suffixPartOf pathToAppImage)) ∧
    (digest ≠ [] →
      containsSubstr ('_' :: digest) pathToAppImage = false →
      containsSubstr ('_' :: digest)
        (buildPathToIntegratedAppImage defaultDestination homePath
          configFile digest pathToAppImage) = true) := by
  have happend : ∀ fileName : QString,
      (if suffixOf pathToAppImage ≠ [] then
        fileName ++ '.' :: suffixOf pathToAppImage
      else fileName) = fileName ++ suffixPartOf pathToAppImage := by
    intro fileName
    unfold suffixPartOf
    by_cases hs : suffixOf pathToAppImage = [] <;> simp [hs]
  have heq1 : digest ≠ [] →
      containsSubstr ('_' :: digest) pathToAppImage = false →
      buildPathToIntegratedAppImage defaultDestination homePath configFile
          digest pathToAppImage =
        integratedAppImagesDestination defaultDestination homePath
            configFile ++
          '/' :: (completeBaseNameOf pathToAppImage ++ '_' :: digest ++
            suffixPartOf pathToAppImage) := by
    intro hne hc
    unfold buildPathToIntegratedAppImage
    simp only [hne, hc, if_pos, if_true, ite_true, ne_eq,
      not_false_eq_true, happend]
  refine ⟨heq1, ?_, ?_, ?_⟩
  · intro hc
    unfold buildPathToIntegratedAppImage
    by_cases hne : digest = [] <;>
      simp only [hne, hc, ne_eq, not_true_eq_false, not_false_eq_true,
        if_true, if_false, ite_true, ite_false, Bool.true_eq_false,
        ite_self, happend]
  · intro hne
    unfold buildPathToIntegratedAppImage
    simp only [hne, ne_eq, not_true_eq_false, if_false, ite_false,
      happend]
  · intro hne hc
    rw [heq1 hne hc]
    have hshape :
        integratedAppImagesDestination defaultDestination homePath
            configFile ++
          '/' :: (completeBaseNameOf pathToAppImage ++ '_' :: digest ++
            suffixPartOf pathToAppImage) =
        (integratedAppImagesDestination defaultDestination homePath
            configFile ++
          '/' :: completeBaseNameOf pathToAppImage) ++
          (('_' :: digest) ++ suffixPartOf pathToAppImage) := by
      simp [List.append_assoc]
    rw [hshape]
    exact containsSubstr_append_self _ _ _

/-- Witness for claim C9: integrating the path /p/a.im with digest "ab"
appends the digest to the base name, and the result contains the digest
suffix, so a second application would not append it again. -/
theorem c9_buildPath_witness :
    buildPathToIntegratedAppImage "/d".toList [] none "ab".toList
        "/p/a.im".toList = "/d/a_ab.im".toList ∧
    containsSubstr ('_' :: "ab".toList)
      (buildPathToIntegratedAppImage "/d".toList [] none "ab".toList
        "/p/a.im".toList) = true := by
  have h := c9_buildPath_spec "/d".toList [] none "ab".toList
    "/p/a.im".toList
  refine ⟨?_, h.2.2.2 (by decide) (by decide)⟩
  rw [h.1 (by decide) (by decide)]
  decide

/-- Any Name entry that matches the collision-number pattern ends in a
closing bracket, so Qt toUInt fails on the text of the whole match and
yields 0. -/
theorem qstringToUInt_of_matches (s : QString)
    (h : nameMatchesNumberRegex s = true) : qstringToUInt s = 0 := by
  unfold nameMatchesNumberRegex at h
  split at h
  · next t heq =>
    have hs : s = t.reverse ++ [')'] := by
      have hrev := congrArg List.reverse heq
      simpa using hrev
    unfold qstringToUInt
    rw [if_neg]
    rintro ⟨hne, hall⟩
    rw [hs, List.all_append] at hall
    simp at hall
  · exact absurd h (by simp)

/-- The collision-number loop always computes 1: every colliding Name
that matches the pattern makes toUInt return 0, which never reaches the
running maximum. -/
theorem collisionRenameNumber_eq_one (collisionNames : List QString) :
    collisionRenameNumber collisionNames = 1 := by
  unfold collisionRenameNumber
  have key : ∀ (names : List QString) (cur : Nat), 1 ≤ cur →
      names.foldl
        (fun currentNumber currentNameEntry =>
          if nameMatchesNumberRegex currentNameEntry then
            let num := qstringToUInt currentNameEntry
            if num ≥ currentNumber then num + 1 else currentNumber
          else currentNumber)
        cur = cur := by
    intro names
    induction names with
    | nil => intro cur hcur; rfl
    | cons name rest ih =>
      intro cur hcur
      rw [List.foldl_cons]
      cases hm : nameMatchesNumberRegex name with
      | false =>
        simp only [hm, Bool.false_eq_true, if_false, ite_false]
        exact ih cur hcur
      | true =>
        have h0 := qstringToUInt_of_matches name hm
        simp only [hm, if_true, ite_true, h0, ge_iff_le]
        rw [if_neg (by omega)]
        exact ih cur hcur
  exact key collisionNames 1 (Nat.le_refl 1)

/-- Claim C1 fails on the code: with the colliding Names "My App" and
"My App (2)" remaining after the own entry is erased, the highest
bracketed number is 2, so the comment above the loop and the claim call
for the new Name "My App (3)"; the code instead produces "My App (1)",
because it parses match.captured(0) — the whole matched Name — with
toUInt, which yields 0 for every Name that matches the pattern, so the
appended number is 1 for every collision set. -/
theorem c1_collision_number_bug :
    collisionResolvedName "My App".toList
        ["My App".toList, "My App (2)".toList] = "My App (1)".toList ∧
    collisionResolvedName "My App".toList
        ["My App".toList, "My App (2)".toList] ≠ "My App (3)".toList ∧
    ∀ collisionNames : List QString,
      collisionRenameNumber collisionNames = 1 := by
  have h1 := collisionRenameNumber_eq_one
    ["My App".toList, "My App (2)".toList]
  refine ⟨?_, ?_, collisionRenameNumber_eq_one⟩
  · unfold collisionResolvedName
    rw [h1]
    decide
  · unfold collisionResolvedName
    rw [h1]
    decide

/-- Claim C2 fails as stated: when both stat calls succeed and report the
timestamps -1 for the desktop file and -2 for the running binary, the
desktop-file timestamp is strictly greater, yet the function returns
false, because the code treats every negative timestamp like the -1
failure sentinel. -/
theorem c2_counterexample :
    (fun p : QString => if p = ['d'] then some (-1 : Int) else some (-2))
        ['d'] = some (-1 : Int) ∧
    (fun p : QString => if p = ['d'] then some (-1 : Int) else some (-2))
        ['b'] = some (-2 : Int) ∧
    (-2 : Int) < -1 ∧
    desktopFileHasBeenUpdatedSinceLastUpdate
      (fun p : QString => if p = ['d'] then some (-1 : Int) else some (-2))
      ['b'] ['d'] = false ∧
    ¬(desktopFileHasBeenUpdatedSinceLastUpdate
        (fun p : QString =>
          if p = ['d'] then some (-1 : Int) else some (-2))
        ['b'] ['d'] = true ↔ (-2 : Int) < -1) := by
  refine ⟨by decide, by decide, by decide, by decide, by decide⟩

/-- Claim C2 amended: desktopFileHasBeenUpdatedSinceLastUpdate returns
true if and only if both stat calls succeed, the timestamps are
non-negative, and the modification timestamp of the registered desktop
file is strictly greater than that of the running binary; a failed stat
makes getMTime yield -1, and any negative timestamp yields false. -/
theorem c2_amended_spec (statMTime : QString → Option Int)
    (ownBinaryPath desktopFilePath : QString) :
    desktopFileHasBeenUpdatedSinceLastUpdate statMTime ownBinaryPath
        desktopFilePath = true ↔
      ∃ desktopFileMTime ownBinaryMTime : Int,
        statMTime desktopFilePath = some desktopFileMTime ∧
        statMTime ownBinaryPath = some ownBinaryMTime ∧
        0 ≤ ownBinaryMTime ∧ ownBinaryMTime < desktopFileMTime := by
  unfold desktopFileHasBeenUpdatedSinceLastUpdate getMTime
  cases hd : statMTime desktopFilePath with
  | none =>
    simp only [hd]
    constructor
    · intro h
      rw [if_pos (Or.inl (by norm_num))] at h
      exact absurd h (by simp)
    · rintro ⟨d', b', hd', hb', hb0, hlt⟩
      exact Option.noConfusion hd'
  | some d =>
    cases hb : statMTime ownBinaryPath with
    | none =>
      simp only [hb, hd]
      constructor
      · intro h
        rw [if_pos (Or.inr (by norm_num))] at h
        exact absurd h (by simp)
      · rintro ⟨d', b', hd', hb', hb0, hlt⟩
        exact Option.noConfusion hb'
    | some b =>
      simp only [hb, hd, Option.some.injEq]
      by_cases hcond : d < 0 ∨ b < 0
      · simp only [if_pos hcond]
        constructor
        · intro hfalse
          exact absurd hfalse (by simp)
        · rintro ⟨d', b', hd', hb', hb0, hlt⟩
          omega
      · simp only [if_neg hcond]
        push_neg at hcond
        constructor
        · intro htrue
          refine ⟨d, b, rfl, rfl, hcond.2, ?_⟩
          simpa using htrue
        · rintro ⟨d', b', hd', hb', hb0, hlt⟩
          subst hd'
          subst hb'
          simp only [gt_iff_lt, decide_eq_true_eq]
          omega

/-- A bitwise AND with a single-bit mask is nonzero exactly when that bit
is set. -/
theorem and_two_pow_ne_zero_iff (m k : Nat) :
    m &&& 2 ^ k ≠ 0 ↔ m.testBit k = true := by
  rw [Nat.and_two_pow]
  cases h : m.testBit k with
  | false => simp [h]
  | true => simp [h, (Nat.two_pow_pos k).ne']

/-- Subtracting a set bit clears exactly that bit and leaves every other
bit unchanged. -/
theorem testBit_sub_two_pow {n : Nat} (i : Nat) (h : n.testBit i = true)
    (j : Nat) :
    (n - 2 ^ i).testBit j = (decide (j ≠ i) && n.testBit j) := by
  have hge : 2 ^ i ≤ n := Nat.testBit_implies_ge h
  set y := n - 2 ^ i with hy
  have hn : n = 2 ^ i + y := by omega
  have hyi : y.testBit i = false := by
    have h' : (2 ^ i + y).testBit i = true := hn ▸ h
    rw [Nat.testBit_two_pow_add_eq] at h'
    cases hb : y.testBit i with
    | false => rfl
    | true => rw [hb] at h'; exact absurd h' (by simp)
  rcases Nat.lt_trichotomy j i with hj | hj | hj
  · have hne : decide (j ≠ i) = true := by simp [Nat.ne_of_lt hj]
    rw [hn, Nat.testBit_two_pow_add_gt hj, hne, Bool.true_and]
  · subst hj
    simp [hyi]
  · have hne : decide (j ≠ i) = true := by
      simp [Ne.symm (Nat.ne_of_lt hj)]
    rw [hne, Bool.true_and]
    have hP : 0 < 2 ^ (i + 1) := Nat.two_pow_pos _
    have hpow : 2 ^ (i + 1) = 2 * 2 ^ i := by
      rw [Nat.pow_succ]; omega
    have hr : y % 2 ^ (i + 1) < 2 ^ i := by
      by_contra hge2
      push_neg at hge2
      have hlt : y % 2 ^ (i + 1) < 2 ^ (i + 1) := Nat.mod_lt _ hP
      have h1 : (y % 2 ^ (i + 1)).testBit i = true := by
        rw [show y % 2 ^ (i + 1) =
          2 ^ i + (y % 2 ^ (i + 1) - 2 ^ i) from by omega]
        rw [Nat.testBit_two_pow_add_eq,
          Nat.testBit_lt_two_pow (by omega)]
        rfl
      rw [Nat.testBit_mod_two_pow] at h1
      simp [hyi] at h1
    have hdivP : n / 2 ^ (i + 1) = y / 2 ^ (i + 1) := by
      have hq := Nat.div_add_mod y (2 ^ (i + 1))
      rw [hn]
      rw [show 2 ^ i + y =
        2 ^ (i + 1) * (y / 2 ^ (i + 1)) + (y % 2 ^ (i + 1) + 2 ^ i)
        from by omega]
      rw [Nat.mul_add_div hP,
        Nat.div_eq_of_lt (show y % 2 ^ (i + 1) + 2 ^ i < 2 ^ (i + 1)
          from by omega)]
      omega
    have hy' : y.testBit j = (y / 2 ^ (i + 1)).testBit (j - (i + 1)) := by
      rw [← Nat.shiftRight_eq_div_pow, Nat.testBit_shiftRight]
      congr 1
      omega
    have hn' : n.testBit j = (n / 2 ^ (i + 1)).testBit (j - (i + 1)) := by
      rw [← Nat.shiftRight_eq_div_pow, Nat.testBit_shiftRight]
      congr 1
      omega
    rw [hy', hn', hdivP]

/-- One pass of the permission-stripping loop, on a single-bit mask:
the designated bit ends up cleared and no other bit changes. -/
theorem clearBitStep_testBit (m k j : Nat) :
    (if m &&& 2 ^ k ≠ 0 then m - 2 ^ k else m).testBit j =
      (decide (j ≠ k) && m.testBit j) := by
  by_cases h : m &&& 2 ^ k ≠ 0
  · rw [if_pos h]
    exact testBit_sub_two_pow k ((and_two_pow_ne_zero_iff m k).mp h) j
  · rw [if_neg h]
    have hb : m.testBit k = false := by
      cases hb : m.testBit k with
      | false => rfl
      | true => exact absurd ((and_two_pow_ne_zero_iff m k).mpr hb) h
    by_cases hj : j = k
    · subst hj; simp [hb]
    · simp [hj]

/-- The permission-stripping loop of makeNonExecutable clears exactly the
bits 6, 3 and 0 (octal 100, 010 and 001) of the mode. -/
theorem removeExecutablePermissions_testBit (mode j : Nat) :
    (removeExecutablePermissions mode).testBit j =
      (decide (j ≠ 0) &&
        (decide (j ≠ 3) && (decide (j ≠ 6) && mode.testBit j))) := by
  unfold removeExecutablePermissions
  simp only [List.foldl_cons, List.foldl_nil]
  rw [show (64 : Nat) = 2 ^ 6 from by norm_num,
    show (8 : Nat) = 2 ^ 3 from by norm_num,
    show (1 : Nat) = 2 ^ 0 from by norm_num]
  rw [clearBitStep_testBit, clearBitStep_testBit, clearBitStep_testBit]

/-- Claim C6: makeNonExecutable changes only the three execute bits: the
mode passed to chmod is the stat mode with the owner, group and other
execute bits cleared and every other bit unchanged, the returned value is
the chmod outcome, and the function returns false without calling chmod
when stat fails. -/
theorem c6_makeNonExecutable_spec (chmodSucceeds : Nat → Bool)
    (fileStat : FileStat) :
    makeNonExecutable none chmodSucceeds = (false, none) ∧
    makeNonExecutable (some fileStat) chmodSucceeds =
      (chmodSucceeds (removeExecutablePermissions fileStat.st_mode),
       some (removeExecutablePermissions fileStat.st_mode)) ∧
    ∀ j : Nat,
      (removeExecutablePermissions fileStat.st_mode).testBit j =
        if j = 0 ∨ j = 3 ∨ j = 6 then false
        else fileStat.st_mode.testBit j := by
  refine ⟨rfl, rfl, fun j => ?_⟩
  rw [removeExecutablePermissions_testBit]
  by_cases h : j = 0 ∨ j = 3 ∨ j = 6
  · rw [if_pos h]
    rcases h with h | h | h <;> subst h <;> simp
  · rw [if_neg h]
    push_neg at h
    simp [h.1, h.2.1, h.2.2]

end AppImageIntegrator
